import Mathlib

/-!
Shallow embedding of the nwebhook relay server (src/main.rs): a warp HTTP
server holding a registry of websocket connections
(`WebSocketServer \x7b users, next_id \x7d`), a broadcast engine
(`broadcast`, `send_to`), a webhook handler (`handle_webhook`) and the
per-connection read loop started in `main`.  Machine, channel and lock
effects are made explicit: channel queues live in an explicit store, the
lock discipline of `broadcast` is recorded as an event trace.
-/

namespace NWebhook

/-- The websocket message type (tungstenite Message; the warp wrapper has the
same variants).  Only the variants the program can observe are carried. -/
inductive Message where
  | text (s : String)
  | binary (payload : List Nat)
  | ping (payload : List Nat)
  | pong (payload : List Nat)
  | close
deriving DecidableEq

/-- `msg.is_text()` of warp ws messages: true exactly on text frames. -/
def Message.isText : Message → Bool
  | .text _ => true
  | _ => false

/-- `msg.to_str()` of warp ws messages: the text of a text frame, failure
otherwise. -/
def Message.toStr : Message → Option String
  | .text s => some s
  | _ => none

/-- `msg.to_string()` (Display of tungstenite Message): a text frame displays
its own string.  The non-text fallback writes a Binary Data placeholder; in
this program only text messages are ever enqueued, so only the first arm is
exercised. -/
def msgToString : Message → String
  | .text s => s
  | .close => ""
  | _ => "Binary Data"

/-- serde_json JSON values (serde_json::Value; numbers restricted to the
integer range, which is all the claims use). -/
inductive Value where
  | null
  | bool (b : Bool)
  | num (n : Int)
  | str (s : String)
  | arr (xs : List Value)
  | obj (fields : List (String × Value))

/-- Lowercase hex digit, as serde_json writes control-character escapes. -/
def hexDigit (n : Nat) : Char :=
  if n < 10 then Char.ofNat (48 + n) else Char.ofNat (87 + n)

/-- serde_json string escaping: quote and backslash escaped, the short
escapes for the usual control characters, and a \u00XX escape for the
remaining characters below 0x20. -/
def escapeChar (c : Char) : List Char :=
  if c = '"' then ['\\', '"']
  else if c = '\\' then ['\\', '\\']
  else if c = '\x08' then ['\\', 'b']
  else if c = '\x09' then ['\\', 't']
  else if c = '\x0a' then ['\\', 'n']
  else if c = '\x0c' then ['\\', 'f']
  else if c = '\x0d' then ['\\', 'r']
  else if c.toNat < 32 then
    ['\\', 'u', '0', '0', hexDigit (c.toNat / 16), hexDigit (c.toNat % 16)]
  else [c]

/-- serde_json serialization of a Rust string: a quoted, escaped JSON
string.  This is what `serde_json::to_string(&text)` produces when the read
loop broadcasts a client text frame. -/
def encodeJsonString (s : String) : String :=
  String.mk ('"' :: s.data.foldr (fun c r => escapeChar c ++ r) ['"'])

mutual

/-- serde_json serialization of a Value (`serde_json::to_string`), which for
a Value never fails. -/
def serializeValue : Value → String
  | .null => "null"
  | .bool b => cond b "true" "false"
  | .num n => toString n
  | .str s => encodeJsonString s
  | .arr xs => "[" ++ serializeItems xs ++ "]"
  | .obj fs => "\x7b" ++ serializeFields fs ++ "\x7d"

def serializeItems : List Value → String
  | [] => ""
  | [x] => serializeValue x
  | x :: y :: rest => serializeValue x ++ "," ++ serializeItems (y :: rest)

def serializeFields : List (String × Value) → String
  | [] => ""
  | [(k, v)] => encodeJsonString k ++ ":" ++ serializeValue v
  | (k, v) :: f :: rest =>
      encodeJsonString k ++ ":" ++ serializeValue v ++ "," ++ serializeFields (f :: rest)

end

/-- `impl Serialize` for &str: `serde_json::to_string` of a string slice,
total. -/
def serStr (s : String) : Except String String := .ok (encodeJsonString s)

/-- `impl Serialize` for Value: `serde_json::to_string` of a Value, total. -/
def serValue (v : Value) : Except String String := .ok (serializeValue v)

/-- The receiver-side state of one `mpsc::unbounded_channel`: whether the
receiver is gone (send fails) and the FIFO queue of messages enqueued and not
yet drained by the outbound loop. -/
structure Chan where
  closed : Bool
  queue : List Message
deriving DecidableEq

/-- The store of all channel states, indexed by channel id (a modelling
index: each connection gets a fresh channel at upgrade). -/
def Chans := Nat → Chan

/-- `UnboundedSender::send`: fails (returning the message, here just false)
exactly when the receiver is dropped; otherwise appends to the queue. -/
def chanSend (cs : Chans) (cid : Nat) (m : Message) : Chans × Bool :=
  if (cs cid).closed then (cs, false)
  else (fun k => if k = cid then { cs cid with queue := (cs cid).queue ++ [m] } else cs k, true)

/-- `struct User \x7b id, tx \x7d`: the id and the sender handle of the
connection, the handle standing for its channel id in the store. -/
structure User where
  id : Nat
  tx : Nat
deriving DecidableEq

/-- The guarded fields of `WebSocketServer`: the `users` HashMap as an
association list (keys distinct by construction) and the `next_id`
counter. -/
structure ServerState where
  users : List (Nat × User)
  nextId : Nat
deriving DecidableEq

/-- The world a handler can touch: the server registry plus the channel
store its senders point into. -/
structure World where
  server : ServerState
  chans : Chans

/-- `WebSocketServer::new()`: empty map, counter at 0. -/
def initialServer : ServerState := { users := [], nextId := 0 }

/-- `HashMap::get`: the value at the key, if present. -/
def mapLookup (l : List (Nat × User)) (k : Nat) : Option User :=
  (l.find? fun p => p.1 == k).map Prod.snd

/-- `HashMap::insert`: binds the key to the value, silently replacing any
existing binding (the replaced value is returned by Rust and discarded by
the caller in main.rs). -/
def mapInsert (l : List (Nat × User)) (k : Nat) (v : User) : List (Nat × User) :=
  (k, v) :: l.filter fun p => p.1 != k

/-- The `users.values()` fan-out loop body of `WebSocketServer::broadcast`:
send `Message::Text(json.clone())` to each user in turn, a failed send only
logged. -/
def broadcastDeliver (json : String) : List (Nat × User) → Chans → Chans
  | [], cs => cs
  | (_, u) :: rest, cs => broadcastDeliver json rest (chanSend cs u.tx (Message.text json)).1

/-- `WebSocketServer::broadcast`: serialize once (the `?` propagates a
serialization error), then under the users lock send the same serialized
text to every registered user; always `Ok(())` after serialization
succeeds. -/
def broadcast {α : Type} (ser : α → Except String String) (w : World) (payload : α) :
    Except String World :=
  match ser payload with
  | .error e => .error e
  | .ok json => .ok { w with chans := broadcastDeliver json w.server.users w.chans }

/-- `WebSocketServer::send_to`: serialize once, look the user up, attempt
one send (failure only logged), log a warning when the user is absent;
always `Ok(())` after serialization succeeds. -/
def send_to {α : Type} (ser : α → Except String String) (w : World) (uid : Nat) (payload : α) :
    Except String World :=
  match ser payload with
  | .error e => .error e
  | .ok json =>
    match mapLookup w.server.users uid with
    | none => .ok w
    | some u => .ok { w with chans := (chanSend w.chans u.tx (Message.text json)).1 }

/-- `handle_webhook` parametrized by the Serialize instance the broadcast
call uses: an Err from broadcast maps to 500 with the error body, Ok to 200
with the success body. -/
def handleWebhookWith (ser : Value → Except String String) (w : World) (body : Value) :
    World × Nat × String :=
  match broadcast ser w body with
  | .error _ => (w, 500, "Error broadcasting message")
  | .ok w2 => (w2, 200, "Message broadcasted")

/-- `handle_webhook(body, ws_server)` as in main.rs: the webhook body is a
serde_json Value. -/
def handle_webhook (w : World) (body : Value) : World × Nat × String :=
  handleWebhookWith serValue w body

/-- One iteration of the per-connection read loop in main.rs: on a text
frame, broadcast its string (the result discarded with `let _ =`); any other
frame is skipped. -/
def readLoopStep (w : World) (msg : Message) : World :=
  if msg.isText then
    match msg.toStr with
    | some t =>
      match broadcast serStr w t with
      | .ok w2 => w2
      | .error _ => w
    | none => w
  else w

/-- The dequeued message as the outbound loop writes it:
`warp::ws::Message::text(msg.to_string())` carries the Display string. -/
def outboundFrame (m : Message) : String := msgToString m

/-- The id-allocation block of the upgrade handler: lock `next_id`,
increment, return the new value. -/
def allocateId (s : ServerState) : Nat × ServerState :=
  (s.nextId + 1, { s with nextId := s.nextId + 1 })

/-- `users.lock().await.insert(id, User \x7b id, tx \x7d)` on the server
state. -/
def registerUser (s : ServerState) (id : Nat) (u : User) : ServerState :=
  { s with users := mapInsert s.users id u }

/-- `users.lock().await.remove(&id)` on the server state. -/
def unregisterUser (s : ServerState) (id : Nat) : ServerState :=
  { s with users := s.users.filter fun p => p.1 != id }

/-- The registry effect of one connection upgrade: allocate a fresh id, make
a fresh channel (modelled with channel id equal to the connection id, fresh
because ids are never reused) and insert the user. -/
def onUpgradeServer (s : ServerState) : Nat × ServerState :=
  let (id, s1) := allocateId s
  (id, registerUser s1 id { id := id, tx := id })

/-- A sequence of n connection upgrades (the mutexes serialize concurrent
upgrades, so any interleaving is some such sequence): the ids returned, in
order, and the final state. -/
def upgradeIds : Nat → ServerState → List Nat × ServerState
  | 0, s => ([], s)
  | n + 1, s =>
    let (id, s1) := onUpgradeServer s
    let (rest, s2) := upgradeIds n s1
    (id :: rest, s2)

/-- The observable event order of `WebSocketServer::broadcast`. -/
inductive Ev where
  | serializeEv
  | acquireLock
  | enqueue (uid : Nat)
  | releaseLock
deriving DecidableEq

/-- The event trace of one `broadcast` call whose serialization succeeded
(both Serialize instances in the repository are total): serialize, take the
users lock, send to each user in the loop, drop the guard at the end of the
function. -/
def broadcastTrace (w : World) : List Ev :=
  Ev.serializeEv :: Ev.acquireLock ::
    (w.server.users.map (fun p => Ev.enqueue p.2.id) ++ [Ev.releaseLock])

/-- Lock book-keeping: true when every enqueue event happens while the lock
is NOT held. -/
def evsOutsideLock (held : Bool) : List Ev → Bool
  | [] => true
  | Ev.acquireLock :: r => evsOutsideLock true r
  | Ev.releaseLock :: r => evsOutsideLock false r
  | Ev.enqueue _ :: r => !held && evsOutsideLock held r
  | _ :: r => evsOutsideLock held r

/-- Every enqueue of the trace happens outside the lock. -/
def enqueuesOutsideLock (tr : List Ev) : Bool := evsOutsideLock false tr

/-- Lock book-keeping: true when every enqueue event happens while the lock
IS held. -/
def evsUnderLock (held : Bool) : List Ev → Bool
  | [] => true
  | Ev.acquireLock :: r => evsUnderLock true r
  | Ev.releaseLock :: r => evsUnderLock false r
  | Ev.enqueue _ :: r => held && evsUnderLock held r
  | _ :: r => evsUnderLock held r

/-- Every enqueue of the trace happens under the lock. -/
def enqueuesUnderLock (tr : List Ev) : Bool := evsUnderLock false tr

/-- An open channel with nothing queued. -/
def chanOpenE : Chan := { closed := false, queue := [] }

/-- A channel whose receiver is gone. -/
def chanClosedE : Chan := { closed := true, queue := [] }

/-- A registry of two live connections A = 1 and B = 2, both channels
open. -/
def w2 : World :=
  { server := { users := [(1, ⟨1, 1⟩), (2, ⟨2, 2⟩)], nextId := 2 },
    chans := fun _ => chanOpenE }

/-- A registry of three connections A = 1, B = 2, C = 3, where the channel
of B is closed. -/
def w3 : World :=
  { server := { users := [(1, ⟨1, 1⟩), (2, ⟨2, 2⟩), (3, ⟨3, 3⟩)], nextId := 3 },
    chans := fun k => if k = 2 then chanClosedE else chanOpenE }

/-- A user under id 1 holding channel 10. -/
def userA : User := ⟨1, 10⟩

/-- A distinct user under the same id 1, holding channel 20. -/
def userB : User := ⟨1, 20⟩

/-- A registry already holding id 1. -/
def s5 : ServerState := { users := [(1, userA)], nextId := 1 }

/-- A send to a channel other than the one addressed leaves it unchanged. -/
theorem chanSend_other (cs : Chans) (t : Nat) (m : Message) (c : Nat) (h : c ≠ t) :
    (chanSend cs t m).1 c = cs c := by
  unfold chanSend
  by_cases hc : (cs t).closed
  · simp [hc]
  · simp [hc, h]

/-- The fan-out loop never touches a channel no listed user holds. -/
theorem broadcastDeliver_not_tx (json : String) :
    ∀ (users : List (Nat × User)) (cs : Chans) (c : Nat),
      c ∉ users.map (fun e => e.2.tx) → broadcastDeliver json users cs c = cs c := by
  intro users
  induction users with
  | nil => intro cs c _; rfl
  | cons p rest ih =>
    obtain ⟨k, u⟩ := p
    intro cs c h
    simp only [List.map_cons, List.mem_cons, not_or] at h
    rw [broadcastDeliver]
    rw [ih _ c h.2]
    exact chanSend_other cs u.tx _ c h.1

/-- Per-recipient effect of the fan-out loop when the listed users hold
pairwise distinct channels: a closed channel is untouched, an open one gets
exactly the broadcast text appended. -/
theorem broadcastDeliver_queue (json : String) :
    ∀ (users : List (Nat × User)) (cs : Chans),
      (users.map (fun e => e.2.tx)).Nodup →
      ∀ e ∈ users,
        ((cs e.2.tx).closed = true → broadcastDeliver json users cs e.2.tx = cs e.2.tx) ∧
        ((cs e.2.tx).closed = false →
          broadcastDeliver json users cs e.2.tx
            = { closed := false, queue := (cs e.2.tx).queue ++ [Message.text json] }) := by
  intro users
  induction users with
  | nil => intro cs _ e he; cases he
  | cons p rest ih =>
    obtain ⟨k, u⟩ := p
    intro cs hnd e he
    rw [List.map_cons, List.nodup_cons] at hnd
    rcases List.mem_cons.mp he with he | he
    · subst he
      constructor
      · intro hcl
        rw [broadcastDeliver]
        have hsend : (chanSend cs u.tx (Message.text json)).1 = cs := by
          unfold chanSend; simp [hcl]
        rw [hsend]
        exact broadcastDeliver_not_tx json rest cs u.tx hnd.1
      · intro hop
        rw [broadcastDeliver]
        have hsend : (chanSend cs u.tx (Message.text json)).1 u.tx
            = { closed := false, queue := (cs u.tx).queue ++ [Message.text json] } := by
          unfold chanSend
          simp [hop]
        rw [broadcastDeliver_not_tx json rest _ u.tx hnd.1]
        exact hsend
    · have htx : e.2.tx ≠ u.tx := by
        intro hEq
        exact hnd.1 (hEq ▸ List.mem_map_of_mem (fun q => q.2.tx) he)
      have hkeep : (chanSend cs u.tx (Message.text json)).1 e.2.tx = cs e.2.tx :=
        chanSend_other cs u.tx _ e.2.tx htx
      have step := ih (chanSend cs u.tx (Message.text json)).1 hnd.2 e he
      rw [hkeep] at step
      rw [broadcastDeliver]
      exact step

/-- C1: broadcast attempts delivery to every registered connection; a
recipient whose channel is closed is skipped without error (only logged) and
the remaining recipients still each receive exactly one copy of the
serialized payload; once serialization succeeded the call returns Ok. -/
theorem broadcast_best_effort {α : Type} (ser : α → Except String String)
    (w : World) (p : α) (json : String)
    (hser : ser p = .ok json)
    (hnd : (w.server.users.map (fun e => e.2.tx)).Nodup) :
    broadcast ser w p = .ok { w with chans := broadcastDeliver json w.server.users w.chans } ∧
    (∀ e ∈ w.server.users, (w.chans e.2.tx).closed = false →
        broadcastDeliver json w.server.users w.chans e.2.tx
          = { closed := false, queue := (w.chans e.2.tx).queue ++ [Message.text json] }) ∧
    (∀ e ∈ w.server.users, (w.chans e.2.tx).closed = true →
        broadcastDeliver json w.server.users w.chans e.2.tx = w.chans e.2.tx) := by
  refine ⟨by simp [broadcast, hser], ?_, ?_⟩
  · intro e he hop
    exact (broadcastDeliver_queue json w.server.users w.chans hnd e he).2 hop
  · intro e he hcl
    exact (broadcastDeliver_queue json w.server.users w.chans hnd e he).1 hcl

/-- C1 witness: broadcasting the payload P to the registry A, B, C with the
channel of B closed delivers one copy each to A and C, leaves B untouched and
returns Ok. -/
theorem broadcast_best_effort_witness :
    serValue (Value.str "P") = .ok "\"P\"" ∧
    (w3.server.users.map (fun e => e.2.tx)).Nodup ∧
    (broadcast serValue w3 (Value.str "P")
        = .ok { w3 with chans := broadcastDeliver "\"P\"" w3.server.users w3.chans } ∧
      (∀ e ∈ w3.server.users, (w3.chans e.2.tx).closed = false →
          broadcastDeliver "\"P\"" w3.server.users w3.chans e.2.tx
            = { closed := false, queue := (w3.chans e.2.tx).queue ++ [Message.text "\"P\""] }) ∧
      (∀ e ∈ w3.server.users, (w3.chans e.2.tx).closed = true →
          broadcastDeliver "\"P\"" w3.server.users w3.chans e.2.tx = w3.chans e.2.tx)) :=
  ⟨rfl, by decide, broadcast_best_effort serValue w3 (Value.str "P") "\"P\"" rfl (by decide)⟩

/-- The tail of the broadcast trace holds no serialization event. -/
theorem count_serializeEv_tail (l : List (Nat × User)) :
    ((l.map fun p => Ev.enqueue p.2.id) ++ [Ev.releaseLock]).count Ev.serializeEv = 0 := by
  induction l with
  | nil => rfl
  | cons p r ih => simpa [List.count_cons] using ih

/-- C2: one broadcast call serializes once, whatever the number of
recipients (the trace holds exactly one serialization event), and the read
loop of any client, the sender included since its own entry is in the
registry, appends the same serialized string to the queue of every open
registered connection. -/
theorem broadcast_serialize_once_echo (w : World) (t : String)
    (hnd : (w.server.users.map (fun e => e.2.tx)).Nodup) :
    (broadcastTrace w).count Ev.serializeEv = 1 ∧
    ∀ e ∈ w.server.users, (w.chans e.2.tx).closed = false →
      ((readLoopStep w (Message.text t)).chans e.2.tx).queue
        = (w.chans e.2.tx).queue ++ [Message.text (encodeJsonString t)] := by
  constructor
  · rw [broadcastTrace]
    simp [List.count_cons, count_serializeEv_tail w.server.users]
  · intro e he hop
    have hred : readLoopStep w (Message.text t)
        = { w with chans := broadcastDeliver (encodeJsonString t) w.server.users w.chans } := rfl
    rw [hred]
    show (broadcastDeliver (encodeJsonString t) w.server.users w.chans e.2.tx).queue = _
    rw [(broadcastDeliver_queue (encodeJsonString t) w.server.users w.chans hnd e he).2 hop]

/-- C2 witness: with clients A = 1 and B = 2 connected, client A sending
hello puts the one serialized copy on the queues of both A and B. -/
theorem broadcast_serialize_once_echo_witness :
    (w2.server.users.map (fun e => e.2.tx)).Nodup ∧
    ((broadcastTrace w2).count Ev.serializeEv = 1 ∧
      ∀ e ∈ w2.server.users, (w2.chans e.2.tx).closed = false →
        ((readLoopStep w2 (Message.text "hello")).chans e.2.tx).queue
          = (w2.chans e.2.tx).queue ++ [Message.text (encodeJsonString "hello")]) :=
  ⟨by decide, broadcast_serialize_once_echo w2 "hello" (by decide)⟩

/-- C3 counterexample: client A sends the text hello to the registry of A = 1
and B = 2; what lands on the queue of B, and what the outbound loop then
writes, is the JSON string encoding (quoted), not the verbatim text. -/
theorem echo_not_verbatim_cex :
    ((readLoopStep w2 (Message.text "hello")).chans 2).queue
        = [Message.text "\"hello\""] ∧
    outboundFrame (Message.text "\"hello\"") = "\"hello\"" ∧
    "\"hello\"" ≠ "hello" := by
  exact ⟨by decide, rfl, by decide⟩

/-- C3 amended: the content of a client text frame is re-encoded as a JSON
string (quoted and escaped by serde_json) before rebroadcast, so every open
registered connection receives the JSON encoding of the text the sender
sent, not the verbatim text; non-text frames are ignored and not
forwarded. -/
theorem echo_json_encoded (w : World) (t : String)
    (hnd : (w.server.users.map (fun e => e.2.tx)).Nodup) :
    (∀ e ∈ w.server.users, (w.chans e.2.tx).closed = false →
        ((readLoopStep w (Message.text t)).chans e.2.tx).queue
          = (w.chans e.2.tx).queue ++ [Message.text (encodeJsonString t)]) ∧
    outboundFrame (Message.text (encodeJsonString t)) = encodeJsonString t ∧
    (∀ m : Message, m.isText = false → readLoopStep w m = w) := by
  refine ⟨?_, rfl, ?_⟩
  · intro e he hop
    have hred : readLoopStep w (Message.text t)
        = { w with chans := broadcastDeliver (encodeJsonString t) w.server.users w.chans } := rfl
    rw [hred]
    show (broadcastDeliver (encodeJsonString t) w.server.users w.chans e.2.tx).queue = _
    rw [(broadcastDeliver_queue (encodeJsonString t) w.server.users w.chans hnd e he).2 hop]
  · intro m hm
    unfold readLoopStep
    rw [hm]
    rfl

/-- C3 amended witness: the hello scenario evaluated on the two-client
registry. -/
theorem echo_json_encoded_witness :
    (w2.server.users.map (fun e => e.2.tx)).Nodup ∧
    ((∀ e ∈ w2.server.users, (w2.chans e.2.tx).closed = false →
        ((readLoopStep w2 (Message.text "hello")).chans e.2.tx).queue
          = (w2.chans e.2.tx).queue ++ [Message.text (encodeJsonString "hello")]) ∧
      outboundFrame (Message.text (encodeJsonString "hello")) = encodeJsonString "hello" ∧
      (∀ m : Message, m.isText = false → readLoopStep w2 m = w2)) :=
  ⟨by decide, echo_json_encoded w2 "hello" (by decide)⟩

/-- C9 counterexample: on the two-client registry the broadcast trace has
its enqueue events inside the lock window, so the claim that every enqueue
happens after the lock is released fails. -/
theorem broadcast_holds_lock_cex :
    enqueuesOutsideLock (broadcastTrace w2) = false := rfl

/-- C9 amended: broadcast serializes first, then iterates the live registry
with every per-recipient enqueue performed while the users lock is held (the
guard drops at the end of the call); no unlocked snapshot phase exists,
though the enqueue on an unbounded channel is itself non-blocking. -/
theorem broadcast_enqueues_under_lock (w : World) :
    enqueuesUnderLock (broadcastTrace w) = true := by
  have main : ∀ l : List (Nat × User),
      evsUnderLock true ((l.map fun p => Ev.enqueue p.2.id) ++ [Ev.releaseLock]) = true := by
    intro l
    induction l with
    | nil => rfl
    | cons p r ih => simpa [evsUnderLock] using ih
  simpa [enqueuesUnderLock, broadcastTrace, evsUnderLock] using main w.server.users

/-- Consecutive ranges are strictly increasing along the list order. -/
theorem pairwise_lt_range1 (n s : Nat) : (List.range' s n).Pairwise (· < ·) := by
  induction n generalizing s with
  | zero => exact List.Pairwise.nil
  | succ k ih =>
    rw [List.range'_succ]
    refine List.Pairwise.cons ?_ (ih (s + 1))
    intro x hx
    have := (List.mem_range'_1.mp hx).1
    omega

/-- The keys of an insert: the new key in front, the old keys with any old
binding of that key dropped. -/
theorem keys_mapInsert (l : List (Nat × User)) (k : Nat) (v : User) :
    (mapInsert l k v).map Prod.fst = k :: (l.map Prod.fst).filter (fun x => x != k) := by
  unfold mapInsert
  rw [List.map_cons]
  congr 1
  induction l with
  | nil => rfl
  | cons p r ih =>
    by_cases h : p.1 != k
    · simp [List.filter_cons, h, ih]
    · simp [List.filter_cons, h, ih]

/-- A filter that every element passes changes nothing. -/
theorem filter_all_true {β : Type} (l : List β) (f : β → Bool)
    (h : ∀ x ∈ l, f x = true) : l.filter f = l :=
  List.filter_eq_self.mpr h

/-- What a run of n upgrades does to a registry whose keys are all at most
the counter: the ids handed out are the next n counter values in order, the
counter advances by n, and the new keys pile up in front of the old ones. -/
theorem upgradeIds_spec (n : Nat) : ∀ s : ServerState,
    (∀ k ∈ s.users.map Prod.fst, k ≤ s.nextId) →
    (upgradeIds n s).1 = List.range' (s.nextId + 1) n ∧
    (upgradeIds n s).2.nextId = s.nextId + n ∧
    (upgradeIds n s).2.users.map Prod.fst
      = (List.range' (s.nextId + 1) n).reverse ++ s.users.map Prod.fst := by
  induction n with
  | zero => intro s _; exact ⟨rfl, rfl, by simp [upgradeIds]⟩
  | succ m ih =>
    intro s hb
    have hstep : upgradeIds (m + 1) s
        = ((s.nextId + 1) :: (upgradeIds m (registerUser { s with nextId := s.nextId + 1 }
              (s.nextId + 1) ⟨s.nextId + 1, s.nextId + 1⟩)).1,
           (upgradeIds m (registerUser { s with nextId := s.nextId + 1 }
              (s.nextId + 1) ⟨s.nextId + 1, s.nextId + 1⟩)).2) := rfl
    set s1 := registerUser { s with nextId := s.nextId + 1 }
        (s.nextId + 1) ⟨s.nextId + 1, s.nextId + 1⟩ with hs1
    have husers : s1.users.map Prod.fst = (s.nextId + 1) :: s.users.map Prod.fst := by
      rw [hs1]
      unfold registerUser
      rw [keys_mapInsert]
      congr 1
      refine filter_all_true _ _ ?_
      intro x hx
      have := hb x hx
      simp only [bne_iff_ne, ne_eq]
      omega
    have hnext : s1.nextId = s.nextId + 1 := rfl
    have hb1 : ∀ k ∈ s1.users.map Prod.fst, k ≤ s1.nextId := by
      rw [husers, hnext]
      intro k hk
      rcases List.mem_cons.mp hk with hk | hk
      · omega
      · have := hb k hk
        omega
    obtain ⟨h1, h2, h3⟩ := ih s1 hb1
    refine ⟨?_, ?_, ?_⟩
    · rw [hstep]
      simp only
      rw [h1, hnext, List.range'_succ]
    · rw [hstep]
      simp only
      rw [h2, hnext]
      omega
    · rw [hstep]
      simp only
      rw [h3, husers, hnext, List.range'_succ, List.reverse_cons, List.append_assoc,
        List.singleton_append]

/-- C4: starting from the fresh server, n connection upgrades hand out the
ids 1 .. n in strictly increasing order (the mutex serializes concurrent
allocations, so no two return the same value) and leave the registry with
exactly n entries under n distinct ids. -/
theorem ids_monotone_unique (n : Nat) :
    (upgradeIds n initialServer).1 = List.range' 1 n ∧
    (upgradeIds n initialServer).1.Pairwise (· < ·) ∧
    (upgradeIds n initialServer).1.Nodup ∧
    (upgradeIds n initialServer).2.users.length = n ∧
    ((upgradeIds n initialServer).2.users.map Prod.fst).Nodup := by
  obtain ⟨h1, _, h3⟩ := upgradeIds_spec n initialServer (by simp [initialServer])
  have hp : (List.range' 1 n).Pairwise (· < ·) := pairwise_lt_range1 n 1
  have hnod : (List.range' 1 n).Nodup := hp.imp Nat.ne_of_lt
  have hkeys : (upgradeIds n initialServer).2.users.map Prod.fst
      = (List.range' 1 n).reverse := by
    rw [h3]
    simp [initialServer]
  refine ⟨h1, ?_, ?_, ?_, ?_⟩
  · rw [h1]; exact hp
  · rw [h1]; exact hnod
  · have := congrArg List.length hkeys
    rw [List.length_map] at this
    rw [this, List.length_reverse]
    induction n with
    | zero => rfl
    | succ k ihl => rw [List.range'_succ]; simp [ihl]
  · rw [hkeys]
    exact List.nodup_reverse.mpr hnod

/-- C5 counterexample: inserting under id 1, already bound to userA, neither
fails nor keeps the old entry: `HashMap::insert` silently replaces it (the
registration step in main.rs has no error case at all). -/
theorem register_duplicate_replaces_cex :
    mapLookup s5.users 1 = some userA ∧
    (registerUser s5 1 userB).users = [(1, userB)] ∧
    mapLookup (registerUser s5 1 userB).users 1 = some userB ∧
    userB ≠ userA := by
  refine ⟨rfl, rfl, rfl, by decide⟩

/-- Dropping bindings of one key does not change a lookup of a different
key. -/
theorem find_filter_ne (l : List (Nat × User)) (k id : Nat) (hk : k ≠ id) :
    ((l.filter fun p => p.1 != id).find? fun p => p.1 == k)
      = l.find? fun p => p.1 == k := by
  induction l with
  | nil => rfl
  | cons p r ih =>
    by_cases h1 : p.1 = id
    · have hne : (id == k) = false := by
        simp only [beq_eq_false_iff_ne, ne_eq]
        omega
      simp [List.filter_cons, h1, List.find?_cons, hne, ih]
    · by_cases h2 : p.1 = k
      · simp [List.filter_cons, h1, h2, List.find?_cons, hk, ih]
      · simp [List.filter_cons, h1, h2, List.find?_cons, ih]

/-- C5 amended: registering under an id always succeeds; when the id is
already present the existing entry is silently replaced, every other binding
untouched, and no DuplicateId error exists anywhere in the code. -/
theorem register_insert_replaces (s : ServerState) (id : Nat) (u : User) :
    mapLookup (registerUser s id u).users id = some u ∧
    ∀ k, k ≠ id → mapLookup (registerUser s id u).users k = mapLookup s.users k := by
  constructor
  · simp [registerUser, mapInsert, mapLookup, List.find?_cons]
  · intro k hk
    unfold registerUser mapInsert mapLookup
    simp only
    rw [List.find?_cons]
    have hne : (id == k) = false := by
      simp only [beq_eq_false_iff_ne, ne_eq]
      omega
    rw [hne]
    simp only [cond_false]
    rw [find_filter_ne s.users k id hk]

/-- C6: when serialization succeeds, send_to returns Ok both when the id is
absent from the registry (the warning is only logged, the state untouched)
and when the addressed channel is closed (the failed enqueue is only
logged). -/
theorem send_to_nonfatal {α : Type} (ser : α → Except String String)
    (w : World) (uid : Nat) (p : α) (json : String)
    (hser : ser p = .ok json) :
    (mapLookup w.server.users uid = none → send_to ser w uid p = .ok w) ∧
    (∀ u, mapLookup w.server.users uid = some u → (w.chans u.tx).closed = true →
        send_to ser w uid p = .ok w) := by
  constructor
  · intro hnone
    simp [send_to, hser, hnone]
  · intro u hu hcl
    simp [send_to, hser, hu, chanSend, hcl]

/-- C6 witness: sending the payload x to the absent id 99 of the three-user
registry returns Ok with the world unchanged. -/
theorem send_to_nonfatal_witness :
    serValue (Value.str "x") = .ok "\"x\"" ∧
    mapLookup w3.server.users 99 = none ∧
    ((mapLookup w3.server.users 99 = none →
        send_to serValue w3 99 (Value.str "x") = .ok w3) ∧
      (∀ u, mapLookup w3.server.users 99 = some u → (w3.chans u.tx).closed = true →
        send_to serValue w3 99 (Value.str "x") = .ok w3)) :=
  ⟨rfl, rfl, send_to_nonfatal serValue w3 99 (Value.str "x") "\"x\"" rfl⟩

/-- C7: the webhook handler answers 200 with body Message broadcasted exactly
when the broadcast call returns Ok, and 500 with body Error broadcasting
message exactly when it returns Err; handle_webhook is this mapping at the
serde_json Value serializer, and no retry is made (the branch returns
immediately either way). -/
theorem webhook_status_matches (ser : Value → Except String String)
    (w : World) (body : Value) :
    ((handleWebhookWith ser w body).2 = (200, "Message broadcasted") ↔
      ∃ w4, broadcast ser w body = .ok w4) ∧
    ((handleWebhookWith ser w body).2 = (500, "Error broadcasting message") ↔
      ∃ e, broadcast ser w body = .error e) ∧
    handle_webhook w body = handleWebhookWith serValue w body := by
  refine ⟨?_, ?_, rfl⟩
  · cases hb : broadcast ser w body with
    | error e => simp [handleWebhookWith, hb]
    | ok w4 => simp [handleWebhookWith, hb]
  · cases hb : broadcast ser w body with
    | error e => simp [handleWebhookWith, hb]
    | ok w4 => simp [handleWebhookWith, hb]

/-- A filter applied twice is the filter applied once. -/
theorem filter_idem {β : Type} (l : List β) (f : β → Bool) :
    (l.filter f).filter f = l.filter f := by
  induction l with
  | nil => rfl
  | cons p r ih =>
    by_cases h : f p
    · simp [List.filter_cons, h, ih]
    · simp [List.filter_cons, h, ih]

/-- C8: removing a connection id twice leaves the same registry as removing
it once, and removing an absent id changes nothing (HashMap::remove of a
missing key is a no-op, not an error). -/
theorem unregister_idempotent (s : ServerState) (id : Nat) :
    unregisterUser (unregisterUser s id) id = unregisterUser s id ∧
    (mapLookup s.users id = none → unregisterUser s id = s) := by
  constructor
  · unfold unregisterUser
    simp only
    rw [filter_idem]
  · intro hnone
    have hfind : (s.users.find? fun p => p.1 == id) = none := by
      unfold mapLookup at hnone
      exact Option.map_eq_none'.mp hnone
    have hall : ∀ p ∈ s.users, ((fun p : Nat × User => p.1 != id) p) = true := by
      intro p hp
      have := List.find?_eq_none.mp hfind p hp
      simp only [bne_iff_ne, ne_eq]
      simp only [beq_iff_eq] at this
      exact this
    unfold unregisterUser
    rw [filter_all_true _ _ hall]

/-- C10: neither broadcast nor send_to touches the registry or the id
counter: whenever either returns Ok, the server component (the users map
with its ids and channel handles, and next_id) of the result is the one it
was called with; only channel queues change. -/
theorem broadcast_send_to_frame {α : Type} (ser : α → Except String String)
    (w : World) (p : α) (uid : Nat) :
    (∀ w4, broadcast ser w p = .ok w4 → w4.server = w.server) ∧
    (∀ w4, send_to ser w uid p = .ok w4 → w4.server = w.server) := by
  constructor
  · intro w4 h
    cases hs : ser p with
    | error e => simp [broadcast, hs] at h
    | ok j =>
      simp [broadcast, hs] at h
      rw [← h]
  · intro w4 h
    cases hs : ser p with
    | error e => simp [send_to, hs] at h
    | ok j =>
      cases hl : mapLookup w.server.users uid with
      | none =>
        simp [send_to, hs, hl] at h
        rw [← h]
      | some u =>
        simp [send_to, hs, hl] at h
        rw [← h]

end NWebhook
